import Mathlib

/-!
Shallow embedding of `stlab::copy_on_write<T>` (src/include/stlab/copy_on_write.hpp).

The C++ class holds a pointer `_self` to a heap-allocated `model` cell
(`_count : atomic size_t` initialised to 1, `_value : T`).  We model the heap
as a list of optional cells (`none` marks a deleted cell; a fresh cell is
appended, so its index is the old length — fresh indices never collide with
live ones).  A handle's `_self` pointer is `Option Nat`: `none` is the
moved-from null state.  A failed `assert` (debug) / undefined behaviour
(release) — using a moved-from handle, self copy-assignment, double delete,
reading a deleted cell — is modelled as the operation returning `none`.
-/

namespace CowSpec

/-- One reference-counted cell: the `_count` and `_value` fields of
`copy_on_write<T>::model`. -/
structure Cell (T : Type) where
  count : Nat
  value : T
deriving DecidableEq, Repr

/-- The heap of cells. `cells[i] = none` means the cell at index `i` has been
deleted; allocation appends at the end. -/
structure Store (T : Type) where
  cells : List (Option (Cell T))
deriving DecidableEq, Repr

/-- A handle's `_self` pointer: `some i` points at cell `i`, `none` is the
null (moved-from) state. -/
abbrev Handle := Option Nat

variable {T : Type}

/-- Dereference a cell pointer: `none` when the index was never allocated or
the cell has been deleted. -/
def Store.get (s : Store T) (i : Nat) : Option (Cell T) :=
  match s.cells[i]? with
  | some c => c
  | none => none

/-- Overwrite the cell at a live index. -/
def Store.set (s : Store T) (i : Nat) (c : Cell T) : Store T :=
  ⟨s.cells.set i (some c)⟩

/-- `delete _self`: mark the cell as gone. -/
def Store.free (s : Store T) (i : Nat) : Store T :=
  ⟨s.cells.set i none⟩

/-- `new model(v)`: append a fresh cell with `_count == 1`; returns the new
store and the fresh cell's index. -/
def Store.alloc (s : Store T) (v : T) : Store T × Nat :=
  (⟨s.cells ++ [some ⟨1, v⟩]⟩, s.cells.length)

/-- `_self->_count.fetch_add(1)` (the copy constructor's retain). Reading a
deleted cell is undefined behaviour, hence `none`. -/
def Store.retain (s : Store T) (i : Nat) : Option (Store T) :=
  (s.get i).map fun c => s.set i ⟨c.count + 1, c.value⟩

/-- The destructor's release: `assert(_count > 0)` (double delete), then
`fetch_sub(1)` and `delete` when the count was 1. -/
def Store.release (s : Store T) (i : Nat) : Option (Store T) :=
  match s.get i with
  | none => none
  | some c =>
    if c.count = 0 then none
    else if c.count = 1 then some (s.free i)
    else some (s.set i ⟨c.count - 1, c.value⟩)

/-- The value-forwarding constructor `copy_on_write(U&& x)`:
`_self(new model(x))`. -/
def cowNew (s : Store T) (v : T) : Store T × Handle :=
  let p := s.alloc v
  (p.1, some p.2)

/-- Copy constructor `copy_on_write(const copy_on_write& x)`:
`assert(x._self)` then `_self = x._self; _self->_count.fetch_add(1)`.
Returns the updated store and the new handle. -/
def copyCtor (s : Store T) (h : Handle) : Option (Store T × Handle) :=
  match h with
  | none => none
  | some i => (s.retain i).map fun s' => (s', some i)

/-- Move constructor `copy_on_write(copy_on_write&& x)`:
`_self = std::exchange(x._self, nullptr); assert(_self)`.
Returns (new handle, source handle afterwards). -/
def moveCtor (h : Handle) : Option (Handle × Handle) :=
  match h with
  | none => none
  | some i => some (some i, none)

/-- Destructor `~copy_on_write()`: nothing when `_self == nullptr`, else
release the cell. -/
def dtor (s : Store T) (h : Handle) : Option (Store T) :=
  match h with
  | none => some s
  | some i => s.release i

/-- `swap(x, y)`: `std::swap(x._self, y._self)`; returns the two handles
afterwards. Never touches the store. -/
def swapOp (x y : Handle) : Handle × Handle := (y, x)

/-- Move assignment `operator=(copy_on_write&& x)` for distinct objects
`this ≠ &x`: `auto tmp{std::move(x)}; swap(*this, tmp);` then `tmp` is
destroyed. Returns (store, new `*this`, `x` afterwards). -/
def moveAssign (s : Store T) (t x : Handle) : Option (Store T × Handle × Handle) :=
  match moveCtor x with
  | none => none
  | some (tmp, xAfter) =>
    let p := swapOp t tmp
    match dtor s p.2 with
    | none => none
    | some s' => some (s', p.1, xAfter)

/-- Move assignment `a = std::move(a)` when `&x == this`: the aliasing made
explicit. `auto tmp{std::move(x)}` empties `*this` (it IS `x`) and the swap
then puts the cell back; `tmp`, now null, is destroyed without effect. -/
def moveAssignSelf (s : Store T) (t : Handle) : Option (Store T × Handle) :=
  match moveCtor t with
  | none => none
  | some (tmp, tAfter) =>
    let p := swapOp tAfter tmp
    match dtor s p.2 with
    | none => none
    | some s' => some (s', p.1)

/-- Copy assignment `operator=(const copy_on_write& x)` for distinct objects:
`return *this = copy_on_write(x);` — copy-construct a temporary, move-assign
it in. -/
def copyAssign (s : Store T) (t x : Handle) : Option (Store T × Handle) :=
  match copyCtor s x with
  | none => none
  | some (s1, tmp) =>
    match moveAssign s1 t tmp with
    | none => none
    | some (s2, t2, _) => some (s2, t2)

/-- Copy assignment when `&x == this`: the assertion
`assert(this != &x && "self-assignment is not allowed")` fires
unconditionally, so the operation has no defined result. -/
def copyAssignSelf (_s : Store T) (_t : Handle) : Option (Store T × Handle) :=
  none

/-- Value assignment `operator=(U&& x)`:
`if (_self && unique()) { _self->_value = x; return *this; }
 return *this = copy_on_write(x);`.
Note the `_self &&` guard: on a null handle this takes the second branch and
is well defined. -/
def assignValue (s : Store T) (t : Handle) (x : T) : Option (Store T × Handle) :=
  match t with
  | some i =>
    match s.get i with
    | some c =>
      if c.count = 1 then
        some (s.set i ⟨c.count, x⟩, some i)
      else
        let p := cowNew s x
        match moveAssign p.1 (some i) p.2 with
        | none => none
        | some (s2, t2, _) => some (s2, t2)
    | none => none
  | none =>
    let p := cowNew s x
    match moveAssign p.1 none p.2 with
    | none => none
    | some (s2, t2, _) => some (s2, t2)

/-- `read()`: `assert(_self); return _self->_value;`. -/
def readOp (s : Store T) (h : Handle) : Option T :=
  match h with
  | none => none
  | some i => (s.get i).map Cell.value

/-- `unique()`: `assert(_self); return _self->_count.load() == 1;`. -/
def uniqueOp (s : Store T) (h : Handle) : Option Bool :=
  match h with
  | none => none
  | some i => (s.get i).map fun c => c.count == 1

/-- `identity(x)`: `assert(_self && x._self); return _self == x._self;` —
a pure pointer comparison, the store is not consulted. -/
def identityOp (a b : Handle) : Option Bool :=
  match a, b with
  | some i, some j => some (i == j)
  | _, _ => none

/-- The state-changing part of `write()`:
`if (!unique()) *this = copy_on_write(read());`. -/
def writeDetach (s : Store T) (t : Handle) : Option (Store T × Handle) :=
  match uniqueOp s t with
  | none => none
  | some u =>
    if u then some (s, t)
    else
      match readOp s t with
      | none => none
      | some v =>
        let p := cowNew s v
        match moveAssign p.1 t p.2 with
        | none => none
        | some (s2, t2, _) => some (s2, t2)

/-- `write() = v2`: detach, then store `v2` through the returned mutable
reference `_self->_value`. -/
def writeAssign (s : Store T) (t : Handle) (v2 : T) : Option (Store T × Handle) :=
  match writeDetach s t with
  | none => none
  | some (s1, t1) =>
    match t1 with
    | none => none
    | some i =>
      match s1.get i with
      | none => none
      | some c => some (s1.set i ⟨c.count, v2⟩, some i)

/-- The simple `write()` followed by a logical edit of the value through the
returned mutable reference: `auto& r = t.write(); r = edit(r);`. -/
def writeEdit (s : Store T) (t : Handle) (edit : T → T) : Option (Store T × Handle) :=
  match writeDetach s t with
  | none => none
  | some (s1, t1) =>
    match t1 with
    | none => none
    | some i =>
      match s1.get i with
      | none => none
      | some c => some (s1.set i ⟨c.count, edit c.value⟩, some i)

/-- Modelled from the spec: the dual-transform
`write(copyTransform, inPlaceTransform)` overload is documented in the
repository's README/FAQ and called by its examples, but its definition is
not among the provided sources. Per the spec (§4.3): if the handle is
unique, apply `inPlaceTransform` to the existing value in place; if shared,
apply `copyTransform` to an immutable view of the current value and install
the result as a new exclusive cell. -/
def writeDual (s : Store T) (t : Handle) (ct ip : T → T) : Option (Store T × Handle) :=
  match uniqueOp s t with
  | none => none
  | some u =>
    if u then
      match t with
      | none => none
      | some i =>
        match s.get i with
        | none => none
        | some c => some (s.set i ⟨c.count, ip c.value⟩, some i)
    else
      match readOp s t with
      | none => none
      | some v =>
        let p := cowNew s (ct v)
        match moveAssign p.1 t p.2 with
        | none => none
        | some (s2, t2, _) => some (s2, t2)

/-- A world of handles over one shared heap: `hs[k]` is the `_self` pointer
of handle object number `k`. A destroyed handle's slot is left as a null
pointer. -/
structure World (T : Type) where
  store : Store T
  hs : List Handle
deriving DecidableEq, Repr

/-- One public `copy_on_write` operation, naming its handle operands by slot
index. -/
inductive Op (T : Type) where
  | newH (v : T)
  | copyH (k : Nat)
  | moveH (k : Nat)
  | destroyH (k : Nat)
  | copyAsgn (k l : Nat)
  | moveAsgn (k l : Nat)
  | valueAsgn (k : Nat) (v : T)
  | writeA (k : Nat) (v : T)
  | writeD (k : Nat)
  | swapH (k l : Nat)

/-- Apply one public operation to a world; `none` when an assertion fires or
the behaviour is undefined (including naming a slot that does not exist). -/
def step (w : World T) : Op T → Option (World T)
  | .newH v =>
    let p := cowNew w.store v
    some ⟨p.1, w.hs ++ [p.2]⟩
  | .copyH k =>
    match w.hs[k]? with
    | none => none
    | some h =>
      match copyCtor w.store h with
      | none => none
      | some (s', h') => some ⟨s', w.hs ++ [h']⟩
  | .moveH k =>
    match w.hs[k]? with
    | none => none
    | some h =>
      match moveCtor h with
      | none => none
      | some (h', hAfter) => some ⟨w.store, (w.hs.set k hAfter) ++ [h']⟩
  | .destroyH k =>
    match w.hs[k]? with
    | none => none
    | some h =>
      match dtor w.store h with
      | none => none
      | some s' => some ⟨s', w.hs.set k none⟩
  | .copyAsgn k l =>
    if k = l then none
    else
      match w.hs[k]?, w.hs[l]? with
      | some a, some b =>
        match copyAssign w.store a b with
        | none => none
        | some (s', a') => some ⟨s', w.hs.set k a'⟩
      | _, _ => none
  | .moveAsgn k l =>
    if k = l then
      match w.hs[k]? with
      | none => none
      | some a =>
        match moveAssignSelf w.store a with
        | none => none
        | some (s', a') => some ⟨s', w.hs.set k a'⟩
    else
      match w.hs[k]?, w.hs[l]? with
      | some a, some b =>
        match moveAssign w.store a b with
        | none => none
        | some (s', a', bAfter) => some ⟨s', (w.hs.set k a').set l bAfter⟩
      | _, _ => none
  | .valueAsgn k v =>
    match w.hs[k]? with
    | none => none
    | some a =>
      match assignValue w.store a v with
      | none => none
      | some (s', a') => some ⟨s', w.hs.set k a'⟩
  | .writeA k v =>
    match w.hs[k]? with
    | none => none
    | some a =>
      match writeAssign w.store a v with
      | none => none
      | some (s', a') => some ⟨s', w.hs.set k a'⟩
  | .writeD k =>
    match w.hs[k]? with
    | none => none
    | some a =>
      match writeDetach w.store a with
      | none => none
      | some (s', a') => some ⟨s', w.hs.set k a'⟩
  | .swapH k l =>
    match w.hs[k]?, w.hs[l]? with
    | some a, some b =>
      let p := swapOp a b
      some ⟨w.store, (w.hs.set k p.1).set l p.2⟩
    | _, _ => none

/-- Run a sequence of public operations; `none` as soon as one is undefined. -/
def steps (w : World T) : List (Op T) → Option (World T)
  | [] => some w
  | op :: rest =>
    match step w op with
    | none => none
    | some w' => steps w' rest

/-- Store `s'` keeps every shared cell of `s` intact: any cell whose count is
at least 2 still exists afterwards with the very same value. -/
def preservesShared (s s' : Store T) : Prop :=
  ∀ i n v, s.get i = some ⟨n, v⟩ → 2 ≤ n → ∃ n', s'.get i = some ⟨n', v⟩

/-- Store `s'` keeps every shared cell of `s` intact and still shared: any
cell whose count is at least 2 still exists afterwards with the same value
and a count that is still at least 2. Holds for the steps that never
decrement a count (allocation, retain). -/
def preservesShared2 (s s' : Store T) : Prop :=
  ∀ i n v, s.get i = some ⟨n, v⟩ → 2 ≤ n → ∃ n', 2 ≤ n' ∧ s'.get i = some ⟨n', v⟩

/-- Cell `i` stays shared (count ≥ 2) at every state reached along the given
operation sequence, up to but not including the final state. -/
def SharedAlong (i : Nat) : World T → List (Op T) → Prop
  | _, [] => True
  | w, op :: rest =>
    (∃ c, w.store.get i = some c ∧ 2 ≤ c.count) ∧
      ∀ w', step w op = some w' → SharedAlong i w' rest

/-- `operator==` on two handles: `x.identity(y) || (*x == *y)`, with `T`'s
own equality passed in as `eqT`. -/
def eqOp (eqT : T → T → Bool) (s : Store T) (x y : Handle) : Option Bool :=
  match identityOp x y with
  | none => none
  | some b =>
    if b then some true
    else
      match readOp s x, readOp s y with
      | some vx, some vy => some (eqT vx vy)
      | _, _ => none

/-- `operator<` on two handles: `!x.identity(y) && (*x < *y)`, with `T`'s
own ordering passed in as `ltT`. -/
def ltOp (ltT : T → T → Bool) (s : Store T) (x y : Handle) : Option Bool :=
  match identityOp x y with
  | none => none
  | some b =>
    if b then some false
    else
      match readOp s x, readOp s y with
      | some vx, some vy => some (ltT vx vy)
      | _, _ => none

/-! ### Basic heap lemmas -/

theorem Store.lt_length_of_get {s : Store T} {i : Nat} {c : Cell T}
    (h : s.get i = some c) : i < s.cells.length := by
  by_contra hge
  push_neg at hge
  simp [Store.get, List.getElem?_eq_none hge] at h

theorem Store.get_set_self {s : Store T} {i : Nat} {c : Cell T}
    (hlt : i < s.cells.length) : (s.set i c).get i = some c := by
  simp [Store.get, Store.set, List.getElem?_set_self hlt]

theorem Store.get_set_ne {s : Store T} {i j : Nat} {c : Cell T}
    (h : i ≠ j) : (s.set i c).get j = s.get j := by
  simp [Store.get, Store.set, List.getElem?_set_ne h]

theorem Store.get_free_self {s : Store T} {i : Nat}
    (hlt : i < s.cells.length) : (s.free i).get i = none := by
  simp [Store.get, Store.free, List.getElem?_set_self hlt]

theorem Store.get_free_ne {s : Store T} {i j : Nat}
    (h : i ≠ j) : (s.free i).get j = s.get j := by
  simp [Store.get, Store.free, List.getElem?_set_ne h]

theorem Store.get_alloc_lt {s : Store T} {v : T} {i : Nat}
    (hlt : i < s.cells.length) : (s.alloc v).1.get i = s.get i := by
  simp [Store.get, Store.alloc, List.getElem?_append_left hlt]

theorem Store.get_alloc_self {s : Store T} {v : T} :
    (s.alloc v).1.get s.cells.length = some ⟨1, v⟩ := by
  simp [Store.get, Store.alloc, List.getElem?_concat_length]

theorem Store.length_set {s : Store T} {i : Nat} {c : Cell T} :
    (s.set i c).cells.length = s.cells.length := by
  simp [Store.set]

theorem Store.length_free {s : Store T} {i : Nat} :
    (s.free i).cells.length = s.cells.length := by
  simp [Store.free]

theorem Store.length_alloc {s : Store T} {v : T} :
    (s.alloc v).1.cells.length = s.cells.length + 1 := by
  simp [Store.alloc]

theorem Store.alloc_snd {s : Store T} {v : T} :
    (s.alloc v).2 = s.cells.length := rfl

/-! ### Shared cells are never mutated: per-operation preservation -/

theorem preservesShared_refl (s : Store T) : preservesShared s s :=
  fun _ n _ h _ => ⟨n, h⟩

theorem preservesShared_of_2 {s s' : Store T}
    (h : preservesShared2 s s') : preservesShared s s' := by
  intro i n v hg hn
  obtain ⟨n', _, hg'⟩ := h i n v hg hn
  exact ⟨n', hg'⟩

theorem preservesShared2_trans_1 {s s1 s2 : Store T}
    (h1 : preservesShared2 s s1) (h2 : preservesShared s1 s2) :
    preservesShared s s2 := by
  intro i n v hg hn
  obtain ⟨n', hn', hg'⟩ := h1 i n v hg hn
  exact h2 i n' v hg' hn'

/-! ### Characterisations of the basic operations as equations -/

theorem retain_eq_some {s s' : Store T} {k : Nat} :
    s.retain k = some s' ↔
      ∃ c, s.get k = some c ∧ s' = s.set k ⟨c.count + 1, c.value⟩ := by
  unfold Store.retain
  cases hk : s.get k <;> simp [hk, eq_comm]

theorem release_eq_some {s s' : Store T} {k : Nat} :
    s.release k = some s' ↔
      ∃ c, s.get k = some c ∧ c.count ≠ 0 ∧
        ((c.count = 1 ∧ s' = s.free k) ∨
          (c.count ≠ 1 ∧ s' = s.set k ⟨c.count - 1, c.value⟩)) := by
  unfold Store.release
  cases hk : s.get k with
  | none => simp [hk]
  | some c =>
    simp only [hk, Option.some.injEq]
    by_cases h0 : c.count = 0 <;> by_cases h1 : c.count = 1 <;>
      simp [h0, h1, eq_comm]

theorem copyCtor_eq_some {s s' : Store T} {x h' : Handle} :
    copyCtor s x = some (s', h') ↔
      ∃ i, x = some i ∧ s.retain i = some s' ∧ h' = some i := by
  cases x with
  | none => simp [copyCtor]
  | some i =>
    simp only [copyCtor, Option.map_eq_some', Option.some.injEq, Prod.mk.injEq]
    constructor
    · rintro ⟨s1, hs1, rfl, rfl⟩
      exact ⟨i, rfl, hs1, rfl⟩
    · rintro ⟨j, hj, hr, rfl⟩
      cases hj
      exact ⟨s', hr, rfl, rfl⟩

theorem moveCtor_eq_some {x h' hAfter : Handle} :
    moveCtor x = some (h', hAfter) ↔
      ∃ i, x = some i ∧ h' = some i ∧ hAfter = none := by
  cases x <;> simp [moveCtor, eq_comm, and_assoc]

theorem moveAssign_eq_some {s s' : Store T} {t x t' xA : Handle} :
    moveAssign s t x = some (s', t', xA) ↔
      ∃ i, x = some i ∧ dtor s t = some s' ∧ t' = some i ∧ xA = none := by
  cases x with
  | none => simp [moveAssign, moveCtor]
  | some i =>
    simp only [moveAssign, moveCtor, swapOp]
    cases hd : dtor s t with
    | none => simp
    | some s1 => simp [eq_comm, and_assoc]

theorem moveAssignSelf_eq_some {s s' : Store T} {t t' : Handle} :
    moveAssignSelf s t = some (s', t') ↔
      ∃ i, t = some i ∧ s' = s ∧ t' = some i := by
  cases t with
  | none => simp [moveAssignSelf, moveCtor]
  | some i => simp [moveAssignSelf, moveCtor, swapOp, dtor, eq_comm, and_assoc]

/-! ### Shared cells are never mutated: per-operation preservation -/

theorem preservesShared2_alloc (s : Store T) (v : T) :
    preservesShared2 s (s.alloc v).1 := by
  intro i n w hg hn
  exact ⟨n, hn, by rw [Store.get_alloc_lt (Store.lt_length_of_get hg)]; exact hg⟩

theorem preservesShared2_retain {s s' : Store T} {k : Nat}
    (h : s.retain k = some s') : preservesShared2 s s' := by
  obtain ⟨c, hk, rfl⟩ := retain_eq_some.mp h
  intro i n v hg hn
  by_cases hik : k = i
  · subst hik
    have hlt := Store.lt_length_of_get hk
    rw [hk] at hg
    injection hg with hg'
    subst hg'
    refine ⟨n + 1, by omega, ?_⟩
    simpa using Store.get_set_self hlt
  · exact ⟨n, hn, by rw [Store.get_set_ne hik]; exact hg⟩

theorem preservesShared_release {s s' : Store T} {k : Nat}
    (h : s.release k = some s') : preservesShared s s' := by
  obtain ⟨c, hk, h0, hc⟩ := release_eq_some.mp h
  intro i n v hg hn
  rcases hc with ⟨h1, rfl⟩ | ⟨h1, rfl⟩
  · have hik : k ≠ i := by
      intro he
      subst he
      rw [hk] at hg
      injection hg with hg'
      subst hg'
      simp at h1
      omega
    exact ⟨n, by rw [Store.get_free_ne hik]; exact hg⟩
  · by_cases hik : k = i
    · subst hik
      rw [hk] at hg
      cases hg
      exact ⟨n - 1, Store.get_set_self (Store.lt_length_of_get hk)⟩
    · exact ⟨n, by rw [Store.get_set_ne hik]; exact hg⟩

theorem preservesShared_dtor {s s' : Store T} {h : Handle}
    (hd : dtor s h = some s') : preservesShared s s' := by
  cases h with
  | none => cases hd; exact preservesShared_refl s
  | some k => exact preservesShared_release hd

theorem preservesShared_moveAssign {s s' : Store T} {t x t' x' : Handle}
    (h : moveAssign s t x = some (s', t', x')) : preservesShared s s' := by
  obtain ⟨i, _, hd, _, _⟩ := moveAssign_eq_some.mp h
  exact preservesShared_dtor hd

theorem preservesShared_moveAssignSelf {s s' : Store T} {t t' : Handle}
    (h : moveAssignSelf s t = some (s', t')) : preservesShared s s' := by
  obtain ⟨i, _, rfl, _⟩ := moveAssignSelf_eq_some.mp h
  exact preservesShared_refl _

theorem preservesShared2_copyCtor {s s' : Store T} {x h' : Handle}
    (h : copyCtor s x = some (s', h')) : preservesShared2 s s' := by
  obtain ⟨i, _, hr, _⟩ := copyCtor_eq_some.mp h
  exact preservesShared2_retain hr

theorem preservesShared_copyAssign {s s' : Store T} {t x t' : Handle}
    (h : copyAssign s t x = some (s', t')) : preservesShared s s' := by
  unfold copyAssign at h
  split at h
  · cases h
  · rename_i s1 tmp hc
    split at h
    · cases h
    · rename_i s2 t2 r2 hm
      cases h
      exact preservesShared2_trans_1 (preservesShared2_copyCtor hc)
        (preservesShared_moveAssign hm)

theorem preservesShared_assignValue {s s' : Store T} {t t' : Handle} {x : T}
    (h : assignValue s t x = some (s', t')) : preservesShared s s' := by
  unfold assignValue at h
  split at h
  · rename_i i
    split at h
    · rename_i c hc
      split at h
      · rename_i hcount
        cases h
        intro j n v hg hn
        have hji : i ≠ j := by
          intro he
          subst he
          rw [hc] at hg
          injection hg with hg'
          subst hg'
          simp at hcount
          omega
        exact ⟨n, by rw [Store.get_set_ne hji]; exact hg⟩
      · simp only [cowNew] at h
        split at h
        · cases h
        · rename_i s2 t2 r2 hm
          cases h
          exact preservesShared2_trans_1 (preservesShared2_alloc s x)
            (preservesShared_moveAssign hm)
    · cases h
  · simp only [cowNew] at h
    split at h
    · cases h
    · rename_i s2 t2 r2 hm
      cases h
      exact preservesShared2_trans_1 (preservesShared2_alloc s x)
        (preservesShared_moveAssign hm)

/-- After `write()`'s state change the handle points at a cell that is
exclusively referenced, shared cells are intact, and no cell that was shared
beforehand is the one the mutable reference points into. -/
theorem writeDetach_spec {s s1 : Store T} {t t1 : Handle}
    (h : writeDetach s t = some (s1, t1)) :
    ∃ k c1, t1 = some k ∧ s1.get k = some c1 ∧ c1.count = 1 ∧
      preservesShared s s1 ∧
      ∀ i n v, s.get i = some ⟨n, v⟩ → 2 ≤ n → i ≠ k := by
  unfold writeDetach at h
  cases t with
  | none => simp [uniqueOp] at h
  | some k0 =>
    cases hc0 : s.get k0 with
    | none => simp [uniqueOp, hc0] at h
    | some c0 =>
      simp only [uniqueOp, hc0, Option.map_some'] at h
      split at h
      · rename_i hu
        simp only [Option.some_inj, Prod.mk.injEq] at h
        obtain ⟨rfl, rfl⟩ := h
        simp only [beq_iff_eq] at hu
        refine ⟨k0, c0, rfl, hc0, hu, preservesShared_refl s, ?_⟩
        intro i n v hg hn he
        subst he
        rw [hc0] at hg
        injection hg with hg'
        subst hg'
        simp only [Cell.mk.injEq] at *
        omega
      · rename_i hbeq
        have hu : ¬c0.count = 1 := by simpa using hbeq
        simp only [readOp, hc0, Option.map_some', cowNew] at h
        split at h
        · cases h
        · rename_i s2 t2 r2 hm
          cases h
          obtain ⟨m, hme, hd, ht2, _⟩ := moveAssign_eq_some.mp hm
          injection hme with hme'
          subst hme'
          subst ht2
          have hk0lt : k0 < s.cells.length := Store.lt_length_of_get hc0
          obtain ⟨ca, hca, h0, hrel⟩ := release_eq_some.mp hd
          rw [Store.get_alloc_lt hk0lt, hc0] at hca
          injection hca with hca'
          subst hca'
          rcases hrel with ⟨h1, _⟩ | ⟨h1, rfl⟩
          · exact absurd h1 hu
          · refine ⟨s.cells.length, ⟨1, c0.value⟩, rfl, ?_, rfl, ?_, ?_⟩
            · rw [Store.get_set_ne (by omega)]
              exact Store.get_alloc_self
            · exact preservesShared2_trans_1 (preservesShared2_alloc s c0.value)
                (preservesShared_dtor hd)
            · intro i n v hg hn
              have := Store.lt_length_of_get hg
              omega

theorem preservesShared_writeDetach {s s1 : Store T} {t t1 : Handle}
    (h : writeDetach s t = some (s1, t1)) : preservesShared s s1 := by
  obtain ⟨k, c1, _, _, _, hps, _⟩ := writeDetach_spec h
  exact hps

theorem preservesShared_writeAssign {s s' : Store T} {t t' : Handle} {v2 : T}
    (h : writeAssign s t v2 = some (s', t')) : preservesShared s s' := by
  unfold writeAssign at h
  split at h
  · cases h
  · rename_i s1 t1 hd
    split at h
    · cases h
    · rename_i k
      split at h
      · cases h
      · rename_i c hc
        cases h
        obtain ⟨k', c1, hke, hk1, hc1, hps, hfresh⟩ := writeDetach_spec hd
        injection hke with hke'
        subst hke'
        intro i n v hg hn
        obtain ⟨n1, hg1⟩ := hps i n v hg hn
        have hik := hfresh i n v hg hn
        exact ⟨n1, by rw [Store.get_set_ne (fun he => hik he.symm)]; exact hg1⟩

/-- One public operation never changes the value held by any shared cell
(count ≥ 2): the cell survives with the same value. -/
theorem step_preservesShared {w w' : World T} {op : Op T}
    (h : step w op = some w') : preservesShared w.store w'.store := by
  cases op with
  | newH v =>
    simp only [step, cowNew] at h
    cases h
    exact preservesShared_of_2 (preservesShared2_alloc w.store v)
  | copyH k =>
    simp only [step] at h
    split at h
    · cases h
    · rename_i hh
      split at h
      · cases h
      · rename_i s1 h1 hc
        cases h
        exact preservesShared_of_2 (preservesShared2_copyCtor hc)
  | moveH k =>
    simp only [step] at h
    split at h
    · cases h
    · rename_i hh
      split at h
      · cases h
      · rename_i h1 hA hm
        cases h
        exact preservesShared_refl _
  | destroyH k =>
    simp only [step] at h
    split at h
    · cases h
    · rename_i hh
      split at h
      · cases h
      · rename_i s1 hd
        cases h
        exact preservesShared_dtor hd
  | copyAsgn k l =>
    simp only [step] at h
    split at h
    · cases h
    · split at h
      · rename_i a b
        split at h
        · cases h
        · rename_i s1 a1 hca
          cases h
          exact preservesShared_copyAssign hca
      · cases h
  | moveAsgn k l =>
    simp only [step] at h
    split at h
    · split at h
      · cases h
      · rename_i a
        split at h
        · cases h
        · rename_i s1 a1 hma
          cases h
          exact preservesShared_moveAssignSelf hma
    · split at h
      · rename_i a b
        split at h
        · cases h
        · rename_i s1 a1 b1 hma
          cases h
          exact preservesShared_moveAssign hma
      · cases h
  | valueAsgn k v =>
    simp only [step] at h
    split at h
    · cases h
    · rename_i a
      split at h
      · cases h
      · rename_i s1 a1 hav
        cases h
        exact preservesShared_assignValue hav
  | writeA k v =>
    simp only [step] at h
    split at h
    · cases h
    · rename_i a
      split at h
      · cases h
      · rename_i s1 a1 hwa
        cases h
        exact preservesShared_writeAssign hwa
  | writeD k =>
    simp only [step] at h
    split at h
    · cases h
    · rename_i a
      split at h
      · cases h
      · rename_i s1 a1 hwd
        cases h
        exact preservesShared_writeDetach hwd
  | swapH k l =>
    simp only [step] at h
    split at h
    · rename_i a b
      cases h
      exact preservesShared_refl _
    · cases h

/-! ### Computed equations for the composite operations -/

theorem copyCtor_live_eq {s : Store T} {i : Nat} {c : Cell T}
    (hc : s.get i = some c) :
    copyCtor s (some i) = some (s.set i ⟨c.count + 1, c.value⟩, some i) := by
  simp [copyCtor, Store.retain, hc]

theorem moveAssign_fresh_shared {s : Store T} {i : Nat} {c : Cell T} (v : T)
    (hc : s.get i = some c) (h2 : 2 ≤ c.count) :
    moveAssign (s.alloc v).1 (some i) (some (s.alloc v).2) =
      some (((s.alloc v).1).set i ⟨c.count - 1, c.value⟩,
        some s.cells.length, none) := by
  have hlt := Store.lt_length_of_get hc
  have hga : (s.alloc v).1.get i = some c := by
    rw [Store.get_alloc_lt hlt]; exact hc
  have h0 : ¬c.count = 0 := by omega
  have h1 : ¬c.count = 1 := by omega
  have hrel : (s.alloc v).1.release i =
      some (((s.alloc v).1).set i ⟨c.count - 1, c.value⟩) := by
    simp [Store.release, hga, h0, h1]
  simp [moveAssign, moveCtor, swapOp, dtor, hrel, Store.alloc_snd]

theorem writeDetach_unique_eq {s : Store T} {i : Nat} {c : Cell T}
    (hc : s.get i = some c) (h1 : c.count = 1) :
    writeDetach s (some i) = some (s, some i) := by
  simp [writeDetach, uniqueOp, hc, h1]

theorem writeDetach_shared_eq {s : Store T} {i : Nat} {c : Cell T}
    (hc : s.get i = some c) (h2 : 2 ≤ c.count) :
    writeDetach s (some i) =
      some (((s.alloc c.value).1).set i ⟨c.count - 1, c.value⟩,
        some s.cells.length) := by
  have hbeq : (c.count == 1) = false := by simp; omega
  simp only [writeDetach, uniqueOp, hc, Option.map_some', hbeq,
    Bool.false_eq_true, if_false, readOp, cowNew]
  rw [moveAssign_fresh_shared c.value hc h2]

theorem writeAssign_unique_eq {s : Store T} {i : Nat} {c : Cell T} (v2 : T)
    (hc : s.get i = some c) (h1 : c.count = 1) :
    writeAssign s (some i) v2 = some (s.set i ⟨c.count, v2⟩, some i) := by
  simp only [writeAssign, writeDetach_unique_eq hc h1, hc]

theorem writeAssign_shared_eq {s : Store T} {i : Nat} {c : Cell T} (v2 : T)
    (hc : s.get i = some c) (h2 : 2 ≤ c.count) :
    writeAssign s (some i) v2 =
      some (((((s.alloc c.value).1).set i ⟨c.count - 1, c.value⟩).set
          s.cells.length ⟨1, v2⟩,
        some s.cells.length)) := by
  have hlt := Store.lt_length_of_get hc
  have hget : ((((s.alloc c.value).1).set i ⟨c.count - 1, c.value⟩)).get
      s.cells.length = some ⟨1, c.value⟩ := by
    rw [Store.get_set_ne (by omega)]
    exact Store.get_alloc_self
  simp only [writeAssign, writeDetach_shared_eq hc h2, hget]

theorem assignValue_unique_eq {s : Store T} {i : Nat} {c : Cell T} (x : T)
    (hc : s.get i = some c) (h1 : c.count = 1) :
    assignValue s (some i) x = some (s.set i ⟨c.count, x⟩, some i) := by
  simp [assignValue, hc, h1]

theorem assignValue_shared_eq {s : Store T} {i : Nat} {c : Cell T} (x : T)
    (hc : s.get i = some c) (h2 : 2 ≤ c.count) :
    assignValue s (some i) x =
      some (((s.alloc x).1).set i ⟨c.count - 1, c.value⟩,
        some s.cells.length) := by
  have h1 : ¬c.count = 1 := by omega
  simp only [assignValue, hc, h1, if_false, cowNew]
  rw [moveAssign_fresh_shared x hc h2]

theorem assignValue_null_eq (s : Store T) (x : T) :
    assignValue s none x = some ((s.alloc x).1, some s.cells.length) := by
  simp [assignValue, cowNew, moveAssign, moveCtor, swapOp, dtor, Store.alloc]

theorem writeDual_unique_eq {s : Store T} {i : Nat} {c : Cell T}
    (ct ip : T → T) (hc : s.get i = some c) (h1 : c.count = 1) :
    writeDual s (some i) ct ip =
      some (s.set i ⟨c.count, ip c.value⟩, some i) := by
  simp [writeDual, uniqueOp, hc, h1]

theorem writeDual_shared_eq {s : Store T} {i : Nat} {c : Cell T}
    (ct ip : T → T) (hc : s.get i = some c) (h2 : 2 ≤ c.count) :
    writeDual s (some i) ct ip =
      some (((s.alloc (ct c.value)).1).set i ⟨c.count - 1, c.value⟩,
        some s.cells.length) := by
  have hbeq : (c.count == 1) = false := by simp; omega
  simp only [writeDual, uniqueOp, hc, Option.map_some', hbeq,
    Bool.false_eq_true, if_false, readOp, cowNew]
  rw [moveAssign_fresh_shared (ct c.value) hc h2]

theorem writeEdit_unique_eq {s : Store T} {i : Nat} {c : Cell T}
    (edit : T → T) (hc : s.get i = some c) (h1 : c.count = 1) :
    writeEdit s (some i) edit =
      some (s.set i ⟨c.count, edit c.value⟩, some i) := by
  simp only [writeEdit, writeDetach_unique_eq hc h1, hc]

theorem writeEdit_shared_eq {s : Store T} {i : Nat} {c : Cell T}
    (edit : T → T) (hc : s.get i = some c) (h2 : 2 ≤ c.count) :
    writeEdit s (some i) edit =
      some (((((s.alloc c.value).1).set i ⟨c.count - 1, c.value⟩).set
          s.cells.length ⟨1, edit c.value⟩,
        some s.cells.length)) := by
  have hlt := Store.lt_length_of_get hc
  have hget : ((((s.alloc c.value).1).set i ⟨c.count - 1, c.value⟩)).get
      s.cells.length = some ⟨1, c.value⟩ := by
    rw [Store.get_set_ne (by omega)]
    exact Store.get_alloc_self
  simp only [writeEdit, writeDetach_shared_eq hc h2, hget]

theorem writeDetach_dead_eq {s : Store T} {i : Nat} {c : Cell T}
    (hc : s.get i = some c) (h0 : c.count = 0) :
    writeDetach s (some i) = none := by
  have hga : (s.alloc c.value).1.get i = some c := by
    rw [Store.get_alloc_lt (Store.lt_length_of_get hc)]; exact hc
  have hbeq : (c.count == 1) = false := by simp [h0]
  simp [writeDetach, uniqueOp, hc, hbeq, readOp, cowNew, moveAssign,
    moveCtor, swapOp, dtor, Store.release, hga, h0]

theorem writeDual_dead_eq {s : Store T} {i : Nat} {c : Cell T}
    (ct ip : T → T) (hc : s.get i = some c) (h0 : c.count = 0) :
    writeDual s (some i) ct ip = none := by
  have hga : (s.alloc (ct c.value)).1.get i = some c := by
    rw [Store.get_alloc_lt (Store.lt_length_of_get hc)]; exact hc
  have hbeq : (c.count == 1) = false := by simp [h0]
  simp [writeDual, uniqueOp, hc, hbeq, readOp, cowNew, moveAssign,
    moveCtor, swapOp, dtor, Store.release, hga, h0]

/-- C3: the dual-transform `write(copyTransform, inPlaceTransform)`
(modelled from the spec, see `writeDual`) agrees with the simple `write()`
followed by the same logical edit, in every state and for every handle,
whenever the two transforms perform the same logical edit. The final stores
and handles are equal, so the two forms are observably equivalent. -/
theorem C3_writeDual_equiv_writeEdit :
    ∀ (s : Store T) (t : Handle) (ct ip : T → T),
      (∀ v, ct v = ip v) → writeDual s t ct ip = writeEdit s t ip := by
  intro s t ct ip hct
  cases t with
  | none => simp [writeDual, writeEdit, writeDetach, uniqueOp]
  | some i =>
    cases hc : s.get i with
    | none => simp [writeDual, writeEdit, writeDetach, uniqueOp, hc]
    | some c =>
      by_cases h1 : c.count = 1
      · rw [writeDual_unique_eq ct ip hc h1, writeEdit_unique_eq ip hc h1]
      · by_cases h0 : c.count = 0
        · rw [writeDual_dead_eq ct ip hc h0]
          simp [writeEdit, writeDetach_dead_eq hc h0]
        · have h2 : 2 ≤ c.count := by omega
          have hlt := Store.lt_length_of_get hc
          rw [writeDual_shared_eq ct ip hc h2, writeEdit_shared_eq ip hc h2,
            hct]
          have hstores :
              (((s.alloc c.value).1).set i ⟨c.count - 1, c.value⟩).set
                  s.cells.length ⟨1, ip c.value⟩ =
                ((s.alloc (ip c.value)).1).set i ⟨c.count - 1, c.value⟩ := by
            simp only [Store.alloc, Store.set, Store.mk.injEq]
            rw [List.set_comm _ _ _ (by omega)]
            rw [List.set_append_right _ _ (Nat.le_refl _)]
            simp
          rw [hstores]

/-- Witness for C3 at a concrete input: a shared cell holding 10 (count 2),
both transforms increment. -/
theorem C3_writeDual_equiv_writeEdit_witness :
    (∀ v : Nat, v + 1 = v + 1) ∧
      writeDual (Store.mk [some ⟨2, 10⟩] : Store Nat) (some 0)
          (fun v => v + 1) (fun v => v + 1) =
        writeEdit (Store.mk [some ⟨2, 10⟩] : Store Nat) (some 0)
          (fun v => v + 1) :=
  ⟨fun _ => rfl,
    C3_writeDual_equiv_writeEdit _ _ _ _ (fun _ => rfl)⟩

/-- C1: for every wrapped type and every sequence of public handle
operations, a cell whose refcount stays greater than 1 along the sequence
never has its value mutated in place: it still holds its original value in
the final state (with some refcount). -/
theorem C1_shared_cell_value_immutable :
    ∀ (ops : List (Op T)) (w w' : World T) (i : Nat) (c : Cell T),
      steps w ops = some w' → w.store.get i = some c →
      SharedAlong i w ops →
      ∃ n', w'.store.get i = some ⟨n', c.value⟩ := by
  intro ops
  induction ops with
  | nil =>
    intro w w' i c hs hg _
    cases hs
    exact ⟨c.count, hg⟩
  | cons op rest ih =>
    intro w w' i c hs hg hal
    simp only [steps] at hs
    split at hs
    · cases hs
    · rename_i w1 hstep
      obtain ⟨⟨c0, hc0, hcount⟩, hnext⟩ := hal
      rw [hg] at hc0
      injection hc0 with he
      subst he
      have hpre := step_preservesShared hstep
      obtain ⟨n1, hg1⟩ := hpre i c.count c.value hg hcount
      exact ih w1 w' i ⟨n1, c.value⟩ hs hg1 (hnext w1 hstep)

/-- Witness for C1 at a concrete input: two handles share a cell holding 42
(count 2); a value assignment through one of them detaches, and the shared
cell still holds 42 afterwards. -/
theorem C1_shared_cell_value_immutable_witness :
    ∃ n', (Store.mk [some ⟨1, 42⟩, some ⟨1, 7⟩] : Store Nat).get 0 =
      some ⟨n', 42⟩ :=
  C1_shared_cell_value_immutable [Op.valueAsgn 0 7]
    ⟨⟨[some ⟨2, 42⟩]⟩, [some 0, some 0]⟩
    ⟨⟨[some ⟨1, 42⟩, some ⟨1, 7⟩]⟩, [some 1, some 0]⟩
    0 ⟨2, 42⟩ (by decide) (by decide)
    ⟨⟨⟨2, 42⟩, rfl, by decide⟩, fun _ _ => trivial⟩

/-- C2: constructing `a` from `v`, copy-constructing `b` from `a` (one
shared cell), then running `b.write() = v2` detaches `b`: the two handles no
longer share a cell, `a` still reads `v`, `b` reads `v2`, and both are
unique. -/
theorem C2_write_detaches :
    ∀ (s s1 s2 s3 : Store T) (v v2 : T) (a b b' : Handle),
      v2 ≠ v →
      cowNew s v = (s1, a) →
      copyCtor s1 a = some (s2, b) →
      writeAssign s2 b v2 = some (s3, b') →
      identityOp a b' = some false ∧
      readOp s3 a = some v ∧
      readOp s3 b' = some v2 ∧
      uniqueOp s3 a = some true ∧
      uniqueOp s3 b' = some true := by
  intro s s1 s2 s3 v v2 a b b' _hne hnew hcopy hwrite
  have hA : s1 = (s.alloc v).1 := (congrArg Prod.fst hnew).symm
  have hB : a = some s.cells.length := (congrArg Prod.snd hnew).symm
  subst hA
  subst hB
  have hn : (s.alloc v).1.get s.cells.length = some ⟨1, v⟩ :=
    Store.get_alloc_self
  rw [copyCtor_live_eq hn] at hcopy
  injection hcopy with hcopy'
  have hs2 : s2 = ((s.alloc v).1).set s.cells.length ⟨2, v⟩ :=
    (congrArg Prod.fst hcopy').symm
  have hb : b = some s.cells.length := (congrArg Prod.snd hcopy').symm
  subst hs2
  subst hb
  have hlen1 : s.cells.length < (s.alloc v).1.cells.length := by
    rw [Store.length_alloc]; omega
  have hg2 : (((s.alloc v).1).set s.cells.length ⟨2, v⟩).get s.cells.length =
      some ⟨2, v⟩ := Store.get_set_self hlen1
  rw [writeAssign_shared_eq v2 hg2 (Nat.le_refl 2)] at hwrite
  injection hwrite with hwrite'
  have hs3 : s3 =
      (((((s.alloc v).1).set s.cells.length ⟨2, v⟩).alloc v).1.set
          s.cells.length ⟨1, v⟩).set
        (((s.alloc v).1).set s.cells.length ⟨2, v⟩).cells.length ⟨1, v2⟩ :=
    (congrArg Prod.fst hwrite').symm
  have hb' : b' =
      some (((s.alloc v).1).set s.cells.length ⟨2, v⟩).cells.length :=
    (congrArg Prod.snd hwrite').symm
  subst hs3
  subst hb'
  have hm : (((s.alloc v).1).set s.cells.length ⟨2, v⟩).cells.length =
      s.cells.length + 1 := by
    rw [Store.length_set, Store.length_alloc]
  have hlena : ((((s.alloc v).1).set s.cells.length ⟨2, v⟩).alloc
      v).1.cells.length = s.cells.length + 2 := by
    rw [Store.length_alloc, hm]
  have hg3n :
      ((((((s.alloc v).1).set s.cells.length ⟨2, v⟩).alloc v).1.set
          s.cells.length ⟨1, v⟩).set
        (((s.alloc v).1).set s.cells.length ⟨2, v⟩).cells.length
          ⟨1, v2⟩).get s.cells.length = some ⟨1, v⟩ := by
    rw [Store.get_set_ne
      (by simp only [Store.length_set, Store.length_alloc]; omega)]
    refine Store.get_set_self ?_
    simp only [Store.length_set, Store.length_alloc]
    omega
  have hg3m :
      ((((((s.alloc v).1).set s.cells.length ⟨2, v⟩).alloc v).1.set
          s.cells.length ⟨1, v⟩).set
        (((s.alloc v).1).set s.cells.length ⟨2, v⟩).cells.length
          ⟨1, v2⟩).get
        (((s.alloc v).1).set s.cells.length ⟨2, v⟩).cells.length =
      some ⟨1, v2⟩ := by
    refine Store.get_set_self ?_
    simp only [Store.length_set, Store.length_alloc]
    omega
  refine ⟨?_, ?_, ?_, ?_, ?_⟩
  · simp only [identityOp, Option.some_inj]
    rw [beq_eq_false_iff_ne]
    omega
  · simp [readOp, hg3n]
  · simp [readOp, hg3m]
  · simp [uniqueOp, hg3n]
  · simp [uniqueOp, hg3m]

/-- Witness for C2 at a concrete input (scenario 1 of the spec:
`a(42); b(a); b.write() = 100`). -/
theorem C2_write_detaches_witness :
    identityOp (some 0) (some 1) = some false ∧
      readOp (Store.mk [some ⟨1, 42⟩, some ⟨1, 100⟩] : Store Nat) (some 0) =
        some 42 ∧
      readOp (Store.mk [some ⟨1, 42⟩, some ⟨1, 100⟩] : Store Nat) (some 1) =
        some 100 ∧
      uniqueOp (Store.mk [some ⟨1, 42⟩, some ⟨1, 100⟩] : Store Nat) (some 0) =
        some true ∧
      uniqueOp (Store.mk [some ⟨1, 42⟩, some ⟨1, 100⟩] : Store Nat) (some 1) =
        some true :=
  C2_write_detaches (Store.mk []) (Store.mk [some ⟨1, 42⟩])
    (Store.mk [some ⟨2, 42⟩]) (Store.mk [some ⟨1, 42⟩, some ⟨1, 100⟩])
    42 100 (some 0) (some 0) (some 1)
    (by decide) (by decide) (by decide) (by decide)

/-- C4: after constructing `a` from a value and copy-constructing (first
part) or copy-assigning (second part) `b` from `a`, the two handles refer to
the same cell, neither is unique, the store has no new cell
(length unchanged), and no value was copied: every cell live afterwards
already existed beforehand with the very same value. -/
theorem C4_copy_shares :
    (∀ (s s1 s2 : Store T) (v : T) (a b : Handle),
      cowNew s v = (s1, a) →
      copyCtor s1 a = some (s2, b) →
      identityOp a b = some true ∧
      uniqueOp s2 a = some false ∧
      uniqueOp s2 b = some false ∧
      s2.cells.length = s1.cells.length ∧
      (∀ j c', s2.get j = some c' →
        ∃ c, s1.get j = some c ∧ c'.value = c.value)) ∧
    (∀ (s s1 s2 : Store T) (v : T) (a b2 : Handle) (j0 : Nat) (c0 : Cell T),
      cowNew s v = (s1, a) →
      j0 < s.cells.length →
      s.get j0 = some c0 →
      c0.count ≠ 0 →
      copyAssign s1 (some j0) a = some (s2, b2) →
      identityOp a b2 = some true ∧
      uniqueOp s2 a = some false ∧
      uniqueOp s2 b2 = some false ∧
      s2.cells.length = s1.cells.length ∧
      (∀ j c', s2.get j = some c' →
        ∃ c, s1.get j = some c ∧ c'.value = c.value)) := by
  constructor
  · intro s s1 s2 v a b hnew hcopy
    have hA : s1 = (s.alloc v).1 := (congrArg Prod.fst hnew).symm
    have hB : a = some s.cells.length := (congrArg Prod.snd hnew).symm
    subst hA
    subst hB
    have hn : (s.alloc v).1.get s.cells.length = some ⟨1, v⟩ :=
      Store.get_alloc_self
    rw [copyCtor_live_eq hn] at hcopy
    injection hcopy with hcopy'
    have hs2 : s2 = ((s.alloc v).1).set s.cells.length ⟨2, v⟩ :=
      (congrArg Prod.fst hcopy').symm
    have hb : b = some s.cells.length := (congrArg Prod.snd hcopy').symm
    subst hs2
    subst hb
    have hlen1 : s.cells.length < (s.alloc v).1.cells.length := by
      rw [Store.length_alloc]; omega
    have hg2 : (((s.alloc v).1).set s.cells.length ⟨2, v⟩).get
        s.cells.length = some ⟨2, v⟩ := Store.get_set_self hlen1
    refine ⟨by simp [identityOp], by simp [uniqueOp, hg2],
      by simp [uniqueOp, hg2], Store.length_set, ?_⟩
    intro j c' hj
    by_cases hjn : j = s.cells.length
    · subst hjn
      rw [hg2] at hj
      injection hj with hj'
      subst hj'
      exact ⟨⟨1, v⟩, hn, rfl⟩
    · rw [Store.get_set_ne (fun he => hjn he.symm)] at hj
      exact ⟨c', hj, rfl⟩
  · intro s s1 s2 v a b2 j0 c0 hnew hj0lt hj0 hc0ne hassign
    have hA : s1 = (s.alloc v).1 := (congrArg Prod.fst hnew).symm
    have hB : a = some s.cells.length := (congrArg Prod.snd hnew).symm
    subst hA
    subst hB
    have hn : (s.alloc v).1.get s.cells.length = some ⟨1, v⟩ :=
      Store.get_alloc_self
    have hlen1 : s.cells.length < (s.alloc v).1.cells.length := by
      rw [Store.length_alloc]; omega
    have hg2 : (((s.alloc v).1).set s.cells.length ⟨2, v⟩).get
        s.cells.length = some ⟨2, v⟩ := Store.get_set_self hlen1
    have hgj0 : (((s.alloc v).1).set s.cells.length ⟨2, v⟩).get j0 =
        some c0 := by
      rw [Store.get_set_ne (by omega), Store.get_alloc_lt hj0lt]
      exact hj0
    unfold copyAssign at hassign
    rw [copyCtor_live_eq hn] at hassign
    dsimp only at hassign
    by_cases hc1 : c0.count = 1
    · have hrel : (((s.alloc v).1).set s.cells.length ⟨2, v⟩).release j0 =
          some ((((s.alloc v).1).set s.cells.length ⟨2, v⟩).free j0) := by
        simp [Store.release, hgj0, hc0ne, hc1]
      have hma : moveAssign (((s.alloc v).1).set s.cells.length ⟨2, v⟩)
          (some j0) (some s.cells.length) =
          some ((((s.alloc v).1).set s.cells.length ⟨2, v⟩).free j0,
            some s.cells.length, none) := by
        simp [moveAssign, moveCtor, swapOp, dtor, hrel]
      rw [hma] at hassign
      injection hassign with hassign'
      have hs2 : s2 = (((s.alloc v).1).set s.cells.length ⟨2, v⟩).free j0 :=
        (congrArg Prod.fst hassign').symm
      have hb2 : b2 = some s.cells.length :=
        (congrArg Prod.snd hassign').symm
      subst hs2
      subst hb2
      have hgn : ((((s.alloc v).1).set s.cells.length ⟨2, v⟩).free j0).get
          s.cells.length = some ⟨2, v⟩ := by
        rw [Store.get_free_ne (by omega)]
        exact hg2
      refine ⟨by simp [identityOp], by simp [uniqueOp, hgn],
        by simp [uniqueOp, hgn], by rw [Store.length_free, Store.length_set],
        ?_⟩
      intro j c' hj
      by_cases hjj0 : j = j0
      · subst hjj0
        rw [Store.get_free_self (by rw [Store.length_set]; omega)] at hj
        cases hj
      · rw [Store.get_free_ne (fun he => hjj0 he.symm)] at hj
        by_cases hjn : j = s.cells.length
        · subst hjn
          rw [hg2] at hj
          injection hj with hj'
          subst hj'
          exact ⟨⟨1, v⟩, hn, rfl⟩
        · rw [Store.get_set_ne (fun he => hjn he.symm)] at hj
          exact ⟨c', hj, rfl⟩
    · have hrel : (((s.alloc v).1).set s.cells.length ⟨2, v⟩).release j0 =
          some ((((s.alloc v).1).set s.cells.length ⟨2, v⟩).set j0
            ⟨c0.count - 1, c0.value⟩) := by
        simp [Store.release, hgj0, hc0ne, hc1]
      have hma : moveAssign (((s.alloc v).1).set s.cells.length ⟨2, v⟩)
          (some j0) (some s.cells.length) =
          some ((((s.alloc v).1).set s.cells.length ⟨2, v⟩).set j0
              ⟨c0.count - 1, c0.value⟩,
            some s.cells.length, none) := by
        simp [moveAssign, moveCtor, swapOp, dtor, hrel]
      rw [hma] at hassign
      injection hassign with hassign'
      have hs2 : s2 = (((s.alloc v).1).set s.cells.length ⟨2, v⟩).set j0
          ⟨c0.count - 1, c0.value⟩ :=
        (congrArg Prod.fst hassign').symm
      have hb2 : b2 = some s.cells.length :=
        (congrArg Prod.snd hassign').symm
      subst hs2
      subst hb2
      have hgn : (((((s.alloc v).1).set s.cells.length ⟨2, v⟩).set j0
          ⟨c0.count - 1, c0.value⟩)).get s.cells.length = some ⟨2, v⟩ := by
        rw [Store.get_set_ne (by omega)]
        exact hg2
      refine ⟨by simp [identityOp], by simp [uniqueOp, hgn],
        by simp [uniqueOp, hgn], by rw [Store.length_set, Store.length_set],
        ?_⟩
      intro j c' hj
      by_cases hjj0 : j = j0
      · subst hjj0
        rw [Store.get_set_self (by rw [Store.length_set]; omega)] at hj
        injection hj with hj'
        subst hj'
        refine ⟨c0, ?_, rfl⟩
        rw [Store.get_alloc_lt hj0lt]
        exact hj0
      · rw [Store.get_set_ne (fun he => hjj0 he.symm)] at hj
        by_cases hjn : j = s.cells.length
        · subst hjn
          rw [hg2] at hj
          injection hj with hj'
          subst hj'
          exact ⟨⟨1, v⟩, hn, rfl⟩
        · rw [Store.get_set_ne (fun he => hjn he.symm)] at hj
          exact ⟨c', hj, rfl⟩

/-- Witness for C4 at concrete inputs: copy construction from a fresh
handle, and copy assignment onto a handle owning its own cell. -/
theorem C4_copy_shares_witness :
    (identityOp (some 0) (some 0) = some true ∧
      uniqueOp (Store.mk [some ⟨2, 4⟩] : Store Nat) (some 0) = some false ∧
      uniqueOp (Store.mk [some ⟨2, 4⟩] : Store Nat) (some 0) = some false ∧
      (Store.mk [some ⟨2, 4⟩] : Store Nat).cells.length =
        (Store.mk [some ⟨1, 4⟩] : Store Nat).cells.length ∧
      (∀ j c', (Store.mk [some ⟨2, 4⟩] : Store Nat).get j = some c' →
        ∃ c, (Store.mk [some ⟨1, 4⟩] : Store Nat).get j = some c ∧
          c'.value = c.value)) ∧
    (identityOp (some 1) (some 1) = some true ∧
      uniqueOp (Store.mk [none, some ⟨2, 4⟩] : Store Nat) (some 1) =
        some false ∧
      uniqueOp (Store.mk [none, some ⟨2, 4⟩] : Store Nat) (some 1) =
        some false ∧
      (Store.mk [none, some ⟨2, 4⟩] : Store Nat).cells.length =
        (Store.mk [some ⟨1, 8⟩, some ⟨1, 4⟩] : Store Nat).cells.length ∧
      (∀ j c', (Store.mk [none, some ⟨2, 4⟩] : Store Nat).get j = some c' →
        ∃ c, (Store.mk [some ⟨1, 8⟩, some ⟨1, 4⟩] : Store Nat).get j =
          some c ∧ c'.value = c.value)) :=
  ⟨C4_copy_shares.1 (Store.mk []) (Store.mk [some ⟨1, 4⟩])
      (Store.mk [some ⟨2, 4⟩]) 4 (some 0) (some 0) (by decide) (by decide),
    C4_copy_shares.2 (Store.mk [some ⟨1, 8⟩])
      (Store.mk [some ⟨1, 8⟩, some ⟨1, 4⟩])
      (Store.mk [none, some ⟨2, 4⟩]) 4 (some 1) (some 1) 0 ⟨1, 8⟩
      (by decide) (by decide) (by decide) (by decide) (by decide)⟩

/-- C5: value assignment `handle = x`. On a unique handle it assigns in
place into the existing cell and the handle keeps referencing that cell; on
a handle sharing its cell (count ≥ 2) it detaches into a fresh exclusive
cell holding `x`, while the old cell — and hence any peer still pointing at
it — keeps the old value. -/
theorem C5_value_assignment :
    (∀ (s : Store T) (i : Nat) (c : Cell T) (x : T),
      s.get i = some c → c.count = 1 →
      assignValue s (some i) x = some (s.set i ⟨c.count, x⟩, some i)) ∧
    (∀ (s : Store T) (i : Nat) (c : Cell T) (x : T) (s' : Store T)
        (a' : Handle),
      s.get i = some c → 2 ≤ c.count →
      assignValue s (some i) x = some (s', a') →
      identityOp a' (some i) = some false ∧
      readOp s' a' = some x ∧
      readOp s' (some i) = some c.value) := by
  constructor
  · intro s i c x hc h1
    exact assignValue_unique_eq x hc h1
  · intro s i c x s' a' hc h2 hassign
    rw [assignValue_shared_eq x hc h2] at hassign
    injection hassign with hassign'
    have hs' : s' = ((s.alloc x).1).set i ⟨c.count - 1, c.value⟩ :=
      (congrArg Prod.fst hassign').symm
    have ha' : a' = some s.cells.length := (congrArg Prod.snd hassign').symm
    subst hs'
    subst ha'
    have hlt : i < s.cells.length := Store.lt_length_of_get hc
    have hgm : (((s.alloc x).1).set i ⟨c.count - 1, c.value⟩).get
        s.cells.length = some ⟨1, x⟩ := by
      rw [Store.get_set_ne (by omega)]
      exact Store.get_alloc_self
    have hgi : (((s.alloc x).1).set i ⟨c.count - 1, c.value⟩).get i =
        some ⟨c.count - 1, c.value⟩ := by
      refine Store.get_set_self ?_
      rw [Store.length_alloc]
      omega
    refine ⟨?_, ?_, ?_⟩
    · simp only [identityOp, Option.some_inj]
      rw [beq_eq_false_iff_ne]
      omega
    · simp [readOp, hgm]
    · simp [readOp, hgi]

/-- Witness for C5 at concrete inputs: part one on a unique cell, part two
on a shared cell (scenario 2 of the spec). -/
theorem C5_value_assignment_witness :
    assignValue (Store.mk [some ⟨1, 3⟩] : Store Nat) (some 0) 9 =
        some (Store.mk [some ⟨1, 9⟩], some 0) ∧
      (identityOp (some 1) (some 0) = some false ∧
        readOp (Store.mk [some ⟨1, 7⟩, some ⟨1, 9⟩] : Store Nat) (some 1) =
          some 9 ∧
        readOp (Store.mk [some ⟨1, 7⟩, some ⟨1, 9⟩] : Store Nat) (some 0) =
          some 7) :=
  ⟨C5_value_assignment.1 (Store.mk [some ⟨1, 3⟩]) 0 ⟨1, 3⟩ 9
      (by decide) (by decide),
    C5_value_assignment.2 (Store.mk [some ⟨2, 7⟩]) 0 ⟨2, 7⟩ 9
      (Store.mk [some ⟨1, 7⟩, some ⟨1, 9⟩]) (some 1)
      (by decide) (by decide) (by decide)⟩

/-- C7: for a wrapped type with consistent equality and strict-weak-order
trichotomy, handle comparison is exactly `T`'s comparison of the two read
values — despite the identity short-circuits in `operator<` and
`operator==` — and exactly one of `a < b`, `a == b`, `b < a` holds. -/
theorem C7_ordering_consistent :
    ∀ (ltT eqT : T → T → Bool) (s : Store T) (x y : Handle) (vx vy : T),
      (∀ u w : T,
        (ltT u w = true ∧ eqT u w = false ∧ ltT w u = false) ∨
        (ltT u w = false ∧ eqT u w = true ∧ ltT w u = false) ∨
        (ltT u w = false ∧ eqT u w = false ∧ ltT w u = true)) →
      readOp s x = some vx → readOp s y = some vy →
      ltOp ltT s x y = some (ltT vx vy) ∧
      eqOp eqT s x y = some (eqT vx vy) ∧
      ltOp ltT s y x = some (ltT vy vx) ∧
      ((ltOp ltT s x y = some true ∧ eqOp eqT s x y = some false ∧
          ltOp ltT s y x = some false) ∨
        (ltOp ltT s x y = some false ∧ eqOp eqT s x y = some true ∧
          ltOp ltT s y x = some false) ∨
        (ltOp ltT s x y = some false ∧ eqOp eqT s x y = some false ∧
          ltOp ltT s y x = some true)) := by
  intro ltT eqT s x y vx vy trich hx hy
  cases x with
  | none => simp [readOp] at hx
  | some i =>
    cases y with
    | none => simp [readOp] at hy
    | some j =>
      by_cases hij : i = j
      · subst hij
        rw [hx] at hy
        injection hy with hvv
        subst hvv
        rcases trich vx vx with ⟨h1, h2, h3⟩ | ⟨h1, h2, h3⟩ | ⟨h1, h2, h3⟩
        · rw [h1] at h3; cases h3
        · refine ⟨?_, ?_, ?_, Or.inr (Or.inl ⟨?_, ?_, ?_⟩)⟩ <;>
            simp [ltOp, eqOp, identityOp, h1, h2]
        · rw [h1] at h3; cases h3
      · have hbeq : (i == j) = false := beq_eq_false_iff_ne.mpr hij
        have hbeq2 : (j == i) = false :=
          beq_eq_false_iff_ne.mpr (Ne.symm hij)
        have hlt1 : ltOp ltT s (some i) (some j) = some (ltT vx vy) := by
          simp [ltOp, identityOp, hbeq, hx, hy]
        have heq1 : eqOp eqT s (some i) (some j) = some (eqT vx vy) := by
          simp [eqOp, identityOp, hbeq, hx, hy]
        have hlt2 : ltOp ltT s (some j) (some i) = some (ltT vy vx) := by
          simp [ltOp, identityOp, hbeq2, hx, hy]
        refine ⟨hlt1, heq1, hlt2, ?_⟩
        rcases trich vx vy with ⟨h1, h2, h3⟩ | ⟨h1, h2, h3⟩ | ⟨h1, h2, h3⟩
        · exact Or.inl ⟨by rw [hlt1, h1], by rw [heq1, h2],
            by rw [hlt2, h3]⟩
        · exact Or.inr (Or.inl ⟨by rw [hlt1, h1], by rw [heq1, h2],
            by rw [hlt2, h3]⟩)
        · exact Or.inr (Or.inr ⟨by rw [hlt1, h1], by rw [heq1, h2],
            by rw [hlt2, h3]⟩)

/-- Witness for C7 at a concrete input: two handles over distinct cells
holding 3 and 5, compared with the natural order on `Nat`. -/
theorem C7_ordering_consistent_witness :
    readOp (Store.mk [some ⟨1, 3⟩, some ⟨1, 5⟩] : Store Nat) (some 0) =
        some 3 ∧
      readOp (Store.mk [some ⟨1, 3⟩, some ⟨1, 5⟩] : Store Nat) (some 1) =
        some 5 ∧
      ltOp (fun a b => decide (a < b))
        (Store.mk [some ⟨1, 3⟩, some ⟨1, 5⟩] : Store Nat)
        (some 0) (some 1) = some true := by
  refine ⟨by decide, by decide, ?_⟩
  have h := C7_ordering_consistent (fun a b => decide (a < b))
    (fun a b => a == b) (Store.mk [some ⟨1, 3⟩, some ⟨1, 5⟩])
    (some 0) (some 1) 3 5
    (by
      intro u w
      simp only [beq_eq_false_iff_ne, decide_eq_true_eq,
        decide_eq_false_iff_not, beq_iff_eq, ne_eq]
      omega)
    (by decide) (by decide)
  simpa using h.1

/-- C8 counterexample: value assignment on an empty (moved-from) handle
completes with defined behaviour — the source's `if (_self && unique())`
guard routes the null case to `*this = copy_on_write(x)`, which rebuilds
the handle. -/
theorem C8_counterexample_empty_value_assign :
    assignValue (Store.mk [] : Store Nat) none 5 =
      some (Store.mk [some ⟨1, 5⟩], some 0) := by decide

/-- C8 (amended): on an empty (moved-from) handle, `read()`, `unique()`,
`identity()` (on either side), `write()` (bare or assigning) and copy
construction are precondition violations; destruction and being the target
of a move assignment are defined; and — unlike what the original claim
states — value assignment is also defined: it rebuilds the handle with a
fresh exclusive cell holding the new value. -/
theorem C8_empty_handle_ops :
    ∀ (s : Store T) (v : T) (b : Handle) (i : Nat),
      readOp s none = none ∧
      uniqueOp s none = none ∧
      identityOp none b = none ∧
      identityOp b none = none ∧
      copyCtor s none = none ∧
      writeDetach s none = none ∧
      writeAssign s none v = none ∧
      dtor s none = some s ∧
      moveAssign s none (some i) = some (s, some i, none) ∧
      assignValue s none v = some ((s.alloc v).1, some s.cells.length) := by
  intro s v b i
  refine ⟨rfl, rfl, rfl, ?_, rfl, rfl, rfl, rfl, rfl,
    assignValue_null_eq s v⟩
  cases b <;> rfl

/-- C10: move self-assignment `a = std::move(a)` on a non-empty handle is a
safe no-op: the store (hence every refcount) and the handle's cell are
unchanged — in contrast to copy self-assignment, whose precondition
assertion always fires. -/
theorem C10_move_self_assign_noop :
    ∀ (s : Store T) (t : Handle) (i : Nat), t = some i →
      moveAssignSelf s t = some (s, t) ∧ copyAssignSelf s t = none := by
  intro s t i ht
  subst ht
  exact ⟨by simp [moveAssignSelf, moveCtor, swapOp, dtor], rfl⟩

/-- Witness for C10 at a concrete input. -/
theorem C10_move_self_assign_noop_witness :
    moveAssignSelf (Store.mk [some ⟨1, 5⟩] : Store Nat) (some 0) =
        some (Store.mk [some ⟨1, 5⟩], some 0) ∧
      copyAssignSelf (Store.mk [some ⟨1, 5⟩] : Store Nat) (some 0) = none :=
  C10_move_self_assign_noop _ _ 0 rfl

/-- C6: `identity` implies `==` for every wrapped type, even one whose own
equality function would say otherwise, because `operator==` short-circuits
on identity. -/
theorem C6_identity_implies_eq :
    ∀ (eqT : T → T → Bool) (s : Store T) (x y : Handle),
      identityOp x y = some true → eqOp eqT s x y = some true := by
  intro eqT s x y h
  unfold eqOp
  rw [h]
  simp

/-- Witness for C6 at a concrete input, with an equality function that is
always false: identity still forces `==` to hold. -/
theorem C6_identity_implies_eq_witness :
    identityOp (some 0) (some 0) = some true ∧
      eqOp (fun _ _ => false) (Store.mk [] : Store Nat) (some 0) (some 0) =
        some true :=
  ⟨by decide, C6_identity_implies_eq _ _ _ _ (by decide)⟩

/-- C9: `swap(a, b)` exchanges exactly the two cell pointers: afterwards `a`
reads the value formerly held by `b` and vice versa, every other handle's
identity relation to the two cells is carried over, and — since the `swapH`
step leaves the store untouched — no cell is allocated and no refcount
changes. -/
theorem C9_swap_exchanges :
    ∀ (s : Store T) (a b : Handle), a.isSome → b.isSome →
      readOp s (swapOp a b).1 = readOp s b ∧
      readOp s (swapOp a b).2 = readOp s a ∧
      (∀ h : Handle, identityOp (swapOp a b).1 h = identityOp b h ∧
        identityOp (swapOp a b).2 h = identityOp a h) ∧
      (∀ (w w' : World T) (k l : Nat), step w (Op.swapH k l) = some w' →
        w'.store = w.store) := by
  intro s a b _ _
  refine ⟨rfl, rfl, fun h => ⟨rfl, rfl⟩, ?_⟩
  intro w w' k l hstep
  simp only [step] at hstep
  split at hstep
  · cases hstep
    rfl
  · cases hstep

/-- Witness for C9 at a concrete input. -/
theorem C9_swap_exchanges_witness :
    readOp (Store.mk [some ⟨1, 3⟩, some ⟨1, 4⟩] : Store Nat)
        (swapOp (some 0) (some 1)).1 =
      readOp (Store.mk [some ⟨1, 3⟩, some ⟨1, 4⟩] : Store Nat) (some 1) :=
  (C9_swap_exchanges (Store.mk [some ⟨1, 3⟩, some ⟨1, 4⟩])
    (some 0) (some 1) (by decide) (by decide)).1

end CowSpec
